import Mathlib

/-!
# Verification of the brotli `setup.py` build orchestrator

Shallow embedding of the core logic of `src/setup.py`:

* the system-library resolution / version-gate logic
  (`_pkgconfig_installed_check`, `_parse_pkg_configs`, `_find_system_libraries`),
* the version-header reader (`read_define`, `get_version`), and
* the custom incremental extension builder (`BuildExt.build_extension`).

The external package-metadata registry (the `pkgconfig` python library) is an
external collaborator; its four query operations are modelled from the spec's
interface description (section 6): `exists`, `modversion`, `installed`, `parse`.
Files are modelled as a map from path to optional modification time.
-/

set_option linter.unusedVariables false

namespace BrotliSetup

/-! ## Version-constraint satisfaction, modelled from the spec

Modelled from the spec: the registry operation
`installed(name, version_constraint) -> bool` verifies that the installed
version satisfies a constraint; supported forms are at-least (a constraint
starting with a greater-or-equal sign) and exact match (an equals sign or a
plain version string).  Version strings are split on dots and compared
componentwise, shorter versions padded with zeros.
-/

/-- Python-style whitespace test (space, tab, newline, carriage return,
vertical tab, form feed). -/
def pyIsSpace (c : Char) : Bool :=
  c = ' ' || c = '\t' || c = '\n' || c = '\r' || c = '\x0b' || c = '\x0c'

/-- Strip leading and trailing whitespace from a character list. -/
def trimChars (cs : List Char) : List Char :=
  ((cs.dropWhile pyIsSpace).reverse.dropWhile pyIsSpace).reverse

/-- Does the first list occur literally as a prefix of the second? -/
def isLiteralPrefixOf : List Char → List Char → Bool
  | [], _ => true
  | _ :: _, [] => false
  | p :: ps, c :: cs => p = c && isLiteralPrefixOf ps cs

/-- Split a character list into the dot-separated groups. -/
def splitDots : List Char → List (List Char)
  | [] => [[]]
  | c :: cs =>
    if c = '.' then [] :: splitDots cs
    else
      match splitDots cs with
      | [] => [[c]]
      | g :: gs => (c :: g) :: gs

/-- Interpret a digit run as a number; `none` on empty or non-digit input. -/
def charsToNat? (cs : List Char) : Option Nat :=
  if cs.isEmpty then none
  else if cs.all Char.isDigit then
    some (cs.foldl (fun acc c => acc * 10 + (c.toNat - 48)) 0)
  else none

/-- Parse a dotted version string into its numeric components
(non-numeric components count as zero). -/
def parseVer (cs : List Char) : List Nat :=
  (splitDots cs).map fun p => (charsToNat? p).getD 0

/-- Pad a version component list with zeros up to length `n`. -/
def padVer (a : List Nat) (n : Nat) : List Nat :=
  a ++ List.replicate (n - a.length) 0

/-- Componentwise lexicographic strict order on equal-length component lists. -/
def verLtCore : List Nat → List Nat → Bool
  | [], _ => false
  | _ :: _, [] => false
  | x :: xs, y :: ys => decide (x < y) || (x == y && verLtCore xs ys)

/-- Strict order on version component lists, padding with zeros. -/
def verLt (a b : List Nat) : Bool :=
  verLtCore (padVer a (max a.length b.length)) (padVer b (max a.length b.length))

/-- Version equality up to zero padding. -/
def verEq (a b : List Nat) : Bool := !verLt a b && !verLt b a

/-- At-least comparison on version component lists: `a` is at least `b`. -/
def verGe (a b : List Nat) : Bool := !verLt a b

/-- Modelled from the spec: does installed version `ver` satisfy `constr`?
A constraint starting with a greater-or-equal sign is an at-least bound; one
starting with an equals sign, or a plain version string, demands an exact
match. -/
def versionSatisfies (ver constr : String) : Bool :=
  let c := trimChars constr.toList
  if isLiteralPrefixOf ['>', '='] c then
    verGe (parseVer ver.toList) (parseVer (trimChars (c.drop 2)))
  else if isLiteralPrefixOf ['='] c then
    verEq (parseVer ver.toList) (parseVer (trimChars (c.drop 1)))
  else
    verEq (parseVer ver.toList) (parseVer c)

/-- A registry-reported version string is plain when it carries no
surrounding whitespace and does not itself start with a constraint
operator. -/
def plainVersionString (v : String) : Bool :=
  (trimChars v.toList == v.toList)
    && !(isLiteralPrefixOf ['>', '='] v.toList)
    && !(isLiteralPrefixOf ['='] v.toList)

/-! ## The package-metadata registry -/

/-- Result of `pkgconfig.parse`: the compile/link flags of one library. -/
structure PkgFlags where
  include_dirs : List String
  library_dirs : List String
  libraries : List String
  define_macros : List (String × Option String)
deriving DecidableEq

/-- Modelled from the spec: the external package-metadata registry.
`exists_` and `modversion_` are the registry's raw answers; `parse_` is the
flag query. -/
structure Registry where
  exists_ : String → Bool
  modversion_ : String → String
  parse_ : String → PkgFlags

/-- `pkgconfig.modversion`: the installed version, failing for a library the
registry does not know. -/
def pkgModversion (reg : Registry) (lib : String) : Except String String :=
  if reg.exists_ lib then .ok (reg.modversion_ lib) else .error (lib ++ " not found")

/-- `pkgconfig.installed(lib, constraint)`: the library exists and its
reported version satisfies the constraint. -/
def pkgInstalled (reg : Registry) (lib constr : String) : Bool :=
  reg.exists_ lib && versionSatisfies (reg.modversion_ lib) constr

/-! ## The resolver (`setup.py` lines 30-94) -/

/-- `BROTLI_REQUIRED_VERSION` from `setup.py`. -/
def BROTLI_REQUIRED_VERSION : String := ">= 1.0.9"

/-- The `libs` list from `setup.py`. -/
def libs : List String := ["libbrotlidec", "libbrotlienc", "libbrotlicommon"]

/-- Embedding of `_pkgconfig_installed_check(lib, version, default_installed)`.
The local reassignments of `installed` and `version` in the python source are
rendered as shadowing `let` bindings, exactly as the source overwrites them. -/
def pkgconfig_installed_check (reg : Registry) (lib : String)
    (version : String) (default_installed : Bool) : Except String Unit :=
  let installed := default_installed
  let exists0 := reg.exists_ lib
  match pkgModversion reg lib with
  | .error e => .error e
  | .ok v =>
    let version := v
    let installed := pkgInstalled reg lib version
    if !installed then .error ("Required library " ++ lib ++ " not found")
    else .ok ()

/-- Observable events of a resolver run: the per-library installed check and
the per-library flag query (`pkgconfig.parse`). -/
inductive Ev where
  | check (lib : String)
  | parse (lib : String)
deriving DecidableEq

/-- Worker for `_find_system_libraries`: processes the libraries in order,
accumulating the parsed flags (the global `ext_kwarg_libraries` list, threaded
explicitly) and a trace of registry interactions. -/
def findSystemLibrariesAux (reg : Registry) :
    List String → List PkgFlags → List Ev → Except String (List PkgFlags) × List Ev
  | [], acc, evs => (.ok acc, evs)
  | l :: ls, acc, evs =>
    match pkgconfig_installed_check reg l BROTLI_REQUIRED_VERSION false with
    | .error e => (.error e, evs ++ [.check l])
    | .ok _ =>
      findSystemLibrariesAux reg ls (acc ++ [reg.parse_ l]) (evs ++ [.check l, .parse l])

/-- Embedding of `_find_system_libraries(libs)`: for each library run the
installed check, then `_parse_pkg_configs` which appends the parsed flags. -/
def find_system_libraries (reg : Registry) (ls : List String) :
    Except String (List PkgFlags) × List Ev :=
  findSystemLibrariesAux reg ls [] []

/-! ### Resolver lemmas -/

theorem verLtCore_self (z : List Nat) : verLtCore z z = false := by
  induction z with
  | nil => rfl
  | cons x xs ih => simp [verLtCore, ih, Nat.lt_irrefl]

theorem verLt_self (a : List Nat) : verLt a a = false := by
  simp [verLt, verLtCore_self]

theorem versionSatisfies_self (v : String) (h : plainVersionString v = true) :
    versionSatisfies v v = true := by
  unfold plainVersionString at h
  simp only [Bool.and_eq_true, Bool.not_eq_true', beq_iff_eq] at h
  obtain ⟨⟨htrim, hge⟩, heq⟩ := h
  have htrim2 : trimChars v.data = v.data := htrim
  have hge2 : isLiteralPrefixOf ['>', '='] v.data = false := hge
  have heq2 : isLiteralPrefixOf ['='] v.data = false := heq
  unfold versionSatisfies
  simp [htrim2, hge2, heq2, verEq, verLt_self]

theorem pkgconfig_installed_check_ok (reg : Registry) (lib constr : String) (d : Bool)
    (h1 : reg.exists_ lib = true)
    (h2 : plainVersionString (reg.modversion_ lib) = true) :
    pkgconfig_installed_check reg lib constr d = .ok () := by
  unfold pkgconfig_installed_check pkgModversion
  simp [h1, pkgInstalled, versionSatisfies_self _ h2]

/-- The full trace of a successful resolver run over `ls`. -/
def resolveTrace (ls : List String) : List Ev :=
  ls.flatMap fun p => [Ev.check p, Ev.parse p]

theorem resolveTrace_nil : resolveTrace [] = [] := rfl

theorem resolveTrace_cons (p : String) (ps : List String) :
    resolveTrace (p :: ps) = Ev.check p :: Ev.parse p :: resolveTrace ps := rfl

theorem mem_resolveTrace_parse (ls : List String) (x : String) :
    Ev.parse x ∈ resolveTrace ls ↔ x ∈ ls := by
  induction ls with
  | nil => simp [resolveTrace_nil]
  | cons p ps ih => simp [resolveTrace_cons, ih]

theorem findSystemLibrariesAux_append (reg : Registry) (pre rest : List String)
    (acc : List PkgFlags) (evs : List Ev)
    (hpre : ∀ x ∈ pre, reg.exists_ x = true ∧ plainVersionString (reg.modversion_ x) = true) :
    findSystemLibrariesAux reg (pre ++ rest) acc evs
      = findSystemLibrariesAux reg rest (acc ++ pre.map reg.parse_)
          (evs ++ resolveTrace pre) := by
  induction pre generalizing acc evs with
  | nil => simp [resolveTrace_nil]
  | cons p ps ih =>
    have hp := hpre p (List.mem_cons_self p ps)
    have hrec : ∀ x ∈ ps, reg.exists_ x = true ∧ plainVersionString (reg.modversion_ x) = true :=
      fun x hx => hpre x (List.mem_cons_of_mem p hx)
    simp only [List.cons_append, findSystemLibrariesAux,
      pkgconfig_installed_check_ok reg p BROTLI_REQUIRED_VERSION false hp.1 hp.2]
    rw [show (ps.append rest) = ps ++ rest from rfl, ih _ _ hrec]
    simp [resolveTrace_cons, List.append_assoc]

/-! ### Concrete registries used as witnesses -/

/-- A registry on which every library exists with plain version `1.0.9`. -/
def regAll : Registry :=
  { exists_ := fun _ => true
    modversion_ := fun _ => "1.0.9"
    parse_ := fun l => { include_dirs := ["/usr/include"], library_dirs := ["/usr/lib"],
                         libraries := [l], define_macros := [] } }

/-- A registry that knows only `libfoo`, at reported version `1.5`. -/
def regFoo : Registry :=
  { exists_ := fun l => l == "libfoo"
    modversion_ := fun _ => "1.5"
    parse_ := fun l => { include_dirs := [], library_dirs := [],
                         libraries := [l], define_macros := [] } }

/-- A registry that knows `liba` and `libb` but not `libmissing`. -/
def regFooA : Registry :=
  { exists_ := fun l => l == "liba" || l == "libb"
    modversion_ := fun _ => "1.0.9"
    parse_ := fun l => { include_dirs := [], library_dirs := [],
                         libraries := [l], define_macros := [] } }

/-! ### Claim theorems: resolver -/

/-- Claim C1 (code bug evidence): with requirement constraint `">= 2.0"` and a
registry that reports `libfoo` installed at version `"1.5"`, the installed
check succeeds instead of failing with a version mismatch: the
`version` parameter is overwritten with the registry-reported version before
it is used, so the constraint `">= 2.0"` — which version `"1.5"` does not
satisfy — is never enforced. -/
theorem c1_version_gate_not_enforced :
    pkgconfig_installed_check regFoo "libfoo" ">= 2.0" false = .ok ()
      ∧ versionSatisfies "1.5" ">= 2.0" = false := by
  constructor
  · rfl
  · decide

/-- Claim C3: when every requested library exists in the registry and its
reported version is a plain version string satisfying the required
constraint, the resolver succeeds and the accumulated flag list is exactly
the per-library flag queries in the input requirement order. -/
theorem c3_resolve_preserves_order (reg : Registry) (ls : List String)
    (h : ∀ x ∈ ls, reg.exists_ x = true
        ∧ plainVersionString (reg.modversion_ x) = true
        ∧ versionSatisfies (reg.modversion_ x) BROTLI_REQUIRED_VERSION = true) :
    find_system_libraries reg ls = (.ok (ls.map reg.parse_), resolveTrace ls) := by
  have h2 : ∀ x ∈ ls, reg.exists_ x = true ∧ plainVersionString (reg.modversion_ x) = true :=
    fun x hx => ⟨(h x hx).1, (h x hx).2.1⟩
  have := findSystemLibrariesAux_append reg ls [] [] [] h2
  simp only [List.append_nil] at this
  simpa [find_system_libraries, findSystemLibrariesAux] using this

/-- Witness for C3 at the concrete `libs` list of `setup.py`: the flag list
comes out in the order libbrotlidec, libbrotlienc, libbrotlicommon. -/
theorem c3_resolve_preserves_order_witness :
    find_system_libraries regAll libs
      = (.ok (libs.map regAll.parse_), resolveTrace libs) :=
  c3_resolve_preserves_order regAll libs (by decide)

/-- Claim C4: if every library before `l` passes the check but the registry
reports that `l` does not exist, resolution fails, the flag query for `l` is
never performed, and neither is the flag query for any library after `l`. -/
theorem c4_fail_fast (reg : Registry) (pre post : List String) (l : String)
    (hpre : ∀ x ∈ pre, reg.exists_ x = true ∧ plainVersionString (reg.modversion_ x) = true)
    (hl : reg.exists_ l = false)
    (hpost : ∀ x ∈ post, x ∉ pre) :
    (∃ e, (find_system_libraries reg (pre ++ l :: post)).1 = .error e)
      ∧ Ev.parse l ∉ (find_system_libraries reg (pre ++ l :: post)).2
      ∧ ∀ x ∈ post, Ev.parse x ∉ (find_system_libraries reg (pre ++ l :: post)).2 := by
  have hrun : find_system_libraries reg (pre ++ l :: post)
      = (.error (l ++ " not found"), resolveTrace pre ++ [Ev.check l]) := by
    unfold find_system_libraries
    rw [findSystemLibrariesAux_append reg pre (l :: post) [] [] hpre]
    simp [findSystemLibrariesAux, pkgconfig_installed_check, pkgModversion, hl]
  refine ⟨⟨l ++ " not found", by rw [hrun]⟩, ?_, ?_⟩
  · rw [hrun]
    simp only [List.mem_append, List.mem_singleton]
    rintro (hmem | hmem)
    · have : l ∈ pre := (mem_resolveTrace_parse pre l).mp hmem
      exact absurd (hpre l this).1 (by simp [hl])
    · exact Ev.noConfusion hmem
  · intro x hx
    rw [hrun]
    simp only [List.mem_append, List.mem_singleton]
    rintro (hmem | hmem)
    · exact hpost x hx ((mem_resolveTrace_parse pre x).mp hmem)
    · exact Ev.noConfusion hmem

/-- Witness for C4: with `liba` present and `libmissing` absent, resolution
over `[liba, libmissing, libb]` fails and never parses `libmissing` or
`libb`. -/
theorem c4_fail_fast_witness :
    (∃ e, (find_system_libraries regFooA ["liba", "libmissing", "libb"]).1 = .error e)
      ∧ Ev.parse "libmissing" ∉ (find_system_libraries regFooA ["liba", "libmissing", "libb"]).2
      ∧ ∀ x ∈ ["libb"], Ev.parse x ∉ (find_system_libraries regFooA ["liba", "libmissing", "libb"]).2 :=
  c4_fail_fast regFooA ["liba"] ["libb"] "libmissing" (by decide) (by decide) (by decide)

/-- Claim C9: the outcome of the installed check does not depend on the
`version` or `default_installed` arguments — both are overwritten from
registry queries before they are ever used. -/
theorem c9_check_ignores_constraint_args (reg : Registry) (lib : String)
    (v1 v2 : String) (d1 d2 : Bool) :
    pkgconfig_installed_check reg lib v1 d1 = pkgconfig_installed_check reg lib v2 d2 := rfl

/-! ## The version-header reader (`setup.py` lines 100-118)

`read_define(path, macro)` scans the file line by line and applies the
regular expression  `#define\s<macro>\s+(.+)`  with `re.match` (anchored at
the start of the line, not required to span it).  The embedding reproduces
that pattern on newline-free lines: the literal `#define`, exactly one
whitespace character, the literal macro name, a greedy run of at least one
whitespace character, then a captured run of at least one non-newline
character (greedy, with backtracking from the whitespace run).
-/

/-- Strip a literal prefix from a character list; `none` when it does not
occur. -/
def dropLiteral : List Char → List Char → Option (List Char)
  | [], rest => some rest
  | _ :: _, [] => none
  | p :: ps, c :: cs => if c = p then dropLiteral ps cs else none

/-- Match the tail  `\s*(.+)`  of the pattern after one whitespace character
has already been consumed: greedily consume further whitespace, and on
failure backtrack so that the capture may start at a whitespace character
(never at a newline). -/
def matchAfterSpace : List Char → Option String
  | [] => none
  | c :: cs =>
    if pyIsSpace c then
      match matchAfterSpace cs with
      | some s => some s
      | none =>
        if c = '\n' then none
        else some (String.mk ((c :: cs).takeWhile fun x => x != '\n'))
    else
      some (String.mk ((c :: cs).takeWhile fun x => x != '\n'))

/-- Match  `\s+(.+)`  against `r` and return the captured text. -/
def matchSpacesCapture (r : List Char) : Option String :=
  match r with
  | [] => none
  | c :: cs => if pyIsSpace c then matchAfterSpace cs else none

/-- Continue the pattern after the literal `#define`: one whitespace
character, then the literal macro name, then  `\s+(.+)` . -/
def reMatchTail (mac : String) : List Char → Option String
  | [] => none
  | c :: r2 =>
    if pyIsSpace c then (dropLiteral mac.toList r2).bind matchSpacesCapture
    else none

/-- Apply the pattern  `#define\s<mac>\s+(.+)`  to one line (anchored at the
start), returning the captured macro value. -/
def reMatchDefine (mac : String) (line : String) : Option String :=
  (dropLiteral "#define".toList line.toList).bind (reMatchTail mac)

/-- Embedding of `read_define(path, macro)`: the capture from the first
matching line, or the empty string when no line matches. -/
def read_define (lines : List String) (mac : String) : String :=
  match lines with
  | [] => ""
  | line :: rest =>
    match reMatchDefine mac line with
    | some v => v
    | none => read_define rest mac

/-- The capture from the first line matching the `#define` pattern for
`mac`, if any. -/
def firstCapture (lines : List String) (mac : String) : Option String :=
  lines.findSome? fun line => reMatchDefine mac line

/-- Embedding of `get_version()`: read the three version macros and join
them with dots, or return the empty string when any is missing (python
falsiness of the empty string). -/
def get_version (lines : List String) : String :=
  let major := read_define lines "BROTLI_VERSION_MAJOR"
  let minor := read_define lines "BROTLI_VERSION_MINOR"
  let patch := read_define lines "BROTLI_VERSION_PATCH"
  if major = "" ∨ minor = "" ∨ patch = "" then ""
  else major ++ "." ++ minor ++ "." ++ patch

/-! ### Version-reader lemmas -/

theorem stringMk_cons_ne_empty (c : Char) (l : List Char) : String.mk (c :: l) ≠ "" := by
  intro h
  have := congrArg String.data h
  simp at this

theorem takeWhile_cons_of_ne_newline (c : Char) (cs : List Char) (hnl : c ≠ '\n') :
    (c :: cs).takeWhile (fun x => x != '\n') = c :: cs.takeWhile (fun x => x != '\n') := by
  simp [List.takeWhile_cons, hnl]

theorem matchAfterSpace_ne_empty (r : List Char) (s : String)
    (h : matchAfterSpace r = some s) : s ≠ "" := by
  induction r with
  | nil => exact absurd h (by simp [matchAfterSpace])
  | cons c cs ih =>
    simp only [matchAfterSpace] at h
    by_cases hsp : pyIsSpace c = true
    · rw [if_pos hsp] at h
      cases hrec : matchAfterSpace cs with
      | some s2 =>
        rw [hrec] at h
        obtain rfl := Option.some.inj h
        exact ih hrec
      | none =>
        rw [hrec] at h
        by_cases hnl : c = '\n'
        · rw [if_pos hnl] at h
          exact Option.noConfusion h
        · rw [if_neg hnl] at h
          obtain rfl := Option.some.inj h
          rw [takeWhile_cons_of_ne_newline c cs hnl]
          exact stringMk_cons_ne_empty _ _
    · rw [if_neg hsp] at h
      have hnl : c ≠ '\n' := by
        intro hc
        exact hsp (by simp [hc, pyIsSpace])
      obtain rfl := Option.some.inj h
      rw [takeWhile_cons_of_ne_newline c cs hnl]
      exact stringMk_cons_ne_empty _ _

theorem matchSpacesCapture_ne_empty (r : List Char) (s : String)
    (h : matchSpacesCapture r = some s) : s ≠ "" := by
  cases r with
  | nil => exact absurd h (by simp [matchSpacesCapture])
  | cons c cs =>
    simp only [matchSpacesCapture] at h
    by_cases hsp : pyIsSpace c = true
    · rw [if_pos hsp] at h
      exact matchAfterSpace_ne_empty cs s h
    · rw [if_neg hsp] at h
      exact Option.noConfusion h

theorem reMatchDefine_ne_empty (mac line : String) (s : String)
    (h : reMatchDefine mac line = some s) : s ≠ "" := by
  unfold reMatchDefine at h
  cases h1 : dropLiteral "#define".toList line.toList with
  | none => rw [h1] at h; exact Option.noConfusion h
  | some r1 =>
    rw [h1] at h
    simp only [Option.bind] at h
    cases r1 with
    | nil => exact Option.noConfusion h
    | cons c r2 =>
      simp only [reMatchTail] at h
      by_cases hsp : pyIsSpace c = true
      · rw [if_pos hsp] at h
        cases h2 : dropLiteral mac.toList r2 with
        | none => rw [h2] at h; exact Option.noConfusion h
        | some r3 =>
          rw [h2] at h
          simp only [Option.bind] at h
          exact matchSpacesCapture_ne_empty r3 s h
      · rw [if_neg hsp] at h
        exact Option.noConfusion h

theorem read_define_eq_firstCapture (lines : List String) (mac : String) :
    read_define lines mac = (firstCapture lines mac).getD "" := by
  induction lines with
  | nil => rfl
  | cons line rest ih =>
    unfold read_define firstCapture
    rw [List.findSome?_cons]
    cases h : reMatchDefine mac line with
    | some v => simp
    | none => simpa [firstCapture] using ih

theorem firstCapture_ne_empty (lines : List String) (mac : String) (s : String)
    (h : firstCapture lines mac = some s) : s ≠ "" := by
  induction lines with
  | nil => exact absurd h (by simp [firstCapture])
  | cons line rest ih =>
    unfold firstCapture at h
    rw [List.findSome?_cons] at h
    cases h1 : reMatchDefine mac line with
    | some v =>
      rw [h1] at h
      exact ((Option.some.injEq _ _).mp h) ▸ reMatchDefine_ne_empty mac line v h1
    | none =>
      rw [h1] at h
      exact ih h

/-! ### Claim theorem: version extraction -/

/-- Claim C5: when all three version macros have a matching `#define` line,
`get_version` returns the captured texts of the first matching lines joined
with dots; when any one macro has no matching line, it returns the empty
string, never a partial version. -/
theorem c5_get_version (lines : List String) :
    (∀ a b c : String,
        firstCapture lines "BROTLI_VERSION_MAJOR" = some a →
        firstCapture lines "BROTLI_VERSION_MINOR" = some b →
        firstCapture lines "BROTLI_VERSION_PATCH" = some c →
        get_version lines = a ++ "." ++ b ++ "." ++ c)
      ∧ ((firstCapture lines "BROTLI_VERSION_MAJOR" = none
          ∨ firstCapture lines "BROTLI_VERSION_MINOR" = none
          ∨ firstCapture lines "BROTLI_VERSION_PATCH" = none) →
        get_version lines = "") := by
  constructor
  · intro a b c ha hb hc
    have hane : a ≠ "" := firstCapture_ne_empty _ _ _ ha
    have hbne : b ≠ "" := firstCapture_ne_empty _ _ _ hb
    have hcne : c ≠ "" := firstCapture_ne_empty _ _ _ hc
    simp [get_version, read_define_eq_firstCapture, ha, hb, hc, hane, hbne, hcne]
  · intro h
    rcases h with h | h | h <;>
      simp [get_version, read_define_eq_firstCapture, h]

/-- A concrete version header for the C5 witness. -/
def versionHeaderLines : List String :=
  ["/* version header */",
   "#define BROTLI_VERSION_MAJOR 1",
   "#define BROTLI_VERSION_MINOR 9",
   "#define BROTLI_VERSION_PATCH 0"]

/-- Witness for C5: on a concrete header defining the three macros as 1, 9
and 0, `get_version` returns the dotted join of the captured texts. -/
theorem c5_get_version_witness :
    get_version versionHeaderLines = "1" ++ "." ++ "9" ++ "." ++ "0" :=
  (c5_get_version versionHeaderLines).1 "1" "9" "0" rfl rfl rfl

/-! ## The extension builder (`setup.py` lines 127-202)

`BuildExt.build_extension(ext)` validates the sources field, runs the
timestamp staleness check of `dep_util.newer_group` (missing files counted
as newer), assembles the preprocessor macro list, compiles the `.c` sources
and links the artifact at the configured output path.  The file system is a
map from path to optional modification time; compiling and linking are
modelled as writing the artifact with the current time.
-/

/-- The file system: modification time per existing path. -/
structure FS where
  mtime : String → Option Nat

/-- One entry of the macro list handed to the compiler: a two-tuple define
(whose value may be python `None`) or a one-tuple undefine. -/
inductive MacroEntry where
  | define (name : String) (value : Option String)
  | undef (name : String)
deriving DecidableEq

/-- An extension target.  `sources` is `none` when the python attribute is
`None` (or not a list/tuple); distutils guarantees the other fields are
lists. -/
structure Ext where
  name : String
  sources : Option (List String)
  depends : List String
  define_macros : List (String × Option String)
  undef_macros : List String

/-- Builder configuration: the forced-rebuild flag, the framework's output
path convention, the platform and compiler identification, and the current
time used for newly written files. -/
structure BuildEnv where
  force : Bool
  extFullpath : String → String
  platformSystem : String
  compilerType : String
  now : Nat

/-- Terminal states of one build invocation. -/
inductive Outcome where
  | configError
  | upToDate
  | built
deriving DecidableEq

/-- Result of one build invocation: the terminal state, whether the
compiler was invoked, the macro list passed to it, the `.c` sources handed
to it, and the resulting file system. -/
structure BuildResult where
  outcome : Outcome
  compiled : Bool
  macrosPassed : Option (List MacroEntry)
  compiledSources : List String
  fs : FS

/-- Embedding of `dep_util.newer_group(sources, target, missing='newer')`:
true when the target is missing, or any source is missing or strictly newer
than the target. -/
def newer_group (fs : FS) (sources : List String) (target : String) : Bool :=
  match fs.mtime target with
  | none => true
  | some tm =>
    sources.any fun s =>
      match fs.mtime s with
      | none => true
      | some sm => decide (tm < sm)

/-- The macro list built by `build_extension` (lines 158-167): the target's
declared defines first, then the platform-conditional define (`OS_MACOSX`
on Darwin, else the mingw32 `_hypot` workaround), then the explicit
undefines last. -/
def applyMacros (platformSystem compilerType : String)
    (defines : List (String × Option String)) (undefs : List String) : List MacroEntry :=
  let base := defines.map fun p => MacroEntry.define p.1 p.2
  let withPlatform :=
    if platformSystem = "Darwin" then base ++ [MacroEntry.define "OS_MACOSX" (some "1")]
    else if compilerType = "mingw32" then base ++ [MacroEntry.define "_hypot" (some "hypot")]
    else base
  withPlatform ++ undefs.map MacroEntry.undef

/-- Embedding of `BuildExt.build_extension`.  Validation rejects a missing
(or non-list) sources attribute; the staleness check compares all sources
plus declared dependency files against the artifact; otherwise the `.c`
subset is compiled with the assembled macro list and the artifact is
written at the output path with the current time. -/
def buildExtension (env : BuildEnv) (fs : FS) (ext : Ext) : BuildResult :=
  match ext.sources with
  | none =>
    { outcome := .configError, compiled := false, macrosPassed := none,
      compiledSources := [], fs := fs }
  | some srcs =>
    let ext_path := env.extFullpath ext.name
    let dependList := srcs ++ ext.depends
    if !(env.force || newer_group fs dependList ext_path) then
      { outcome := .upToDate, compiled := false, macrosPassed := none,
        compiledSources := [], fs := fs }
    else
      let c_sources := srcs.filter fun s => s.endsWith ".c"
      let macroList := applyMacros env.platformSystem env.compilerType
        ext.define_macros ext.undef_macros
      { outcome := .built, compiled := true, macrosPassed := some macroList,
        compiledSources := c_sources,
        fs := { mtime := fun p => if p = ext_path then some env.now else fs.mtime p } }

/-- Update one file's modification time. -/
def touch (fs : FS) (p : String) (t : Nat) : FS :=
  { mtime := fun q => if q = p then some t else fs.mtime q }

/-! ### Builder lemmas -/

/-- When the artifact exists at time `t` and every dependency file is
present and not newer than `t`, the staleness check reports up to date. -/
theorem newer_group_eq_false (fs2 : FS) (deps : List String) (path : String) (t : Nat)
    (hpath : fs2.mtime path = some t)
    (hdeps : ∀ d ∈ deps, (fs2.mtime d).getD (t + 1) ≤ t) :
    newer_group fs2 deps path = false := by
  unfold newer_group
  simp only [hpath]
  rw [List.any_eq_false]
  intro d hd
  have hle := hdeps d hd
  cases hm : fs2.mtime d with
  | none =>
    rw [hm] at hle
    simp only [Option.getD_none] at hle
    exact absurd hle (by omega)
  | some td =>
    rw [hm] at hle
    simp only [Option.getD_some] at hle
    have hnl : ¬ (t < td) := by omega
    simp [hnl]

/-! ### Claim theorems: builder -/

/-- A build environment for a non-Darwin, non-mingw platform with no forced
rebuild. -/
def envLinux : BuildEnv :=
  { force := false
    extFullpath := fun n => "build/" ++ n ++ ".so"
    platformSystem := "Linux"
    compilerType := "unix"
    now := 100 }

/-- An empty file system: no artifact, no sources. -/
def fsEmpty : FS := { mtime := fun _ => none }

/-- The `_brotli` target with an empty sources list. -/
def extEmptySources : Ext :=
  { name := "_brotli", sources := some [], depends := [],
    define_macros := [], undef_macros := [] }

/-- Counterexample to claim C2 as stated: a target whose sources list is
empty passes validation — the build proceeds to the compiling path and
invokes the compiler instead of failing with a malformed-target
configuration error. -/
theorem c2_empty_sources_not_rejected :
    (buildExtension envLinux fsEmpty extEmptySources).outcome = .built
      ∧ (buildExtension envLinux fsEmpty extEmptySources).compiled = true := by
  constructor
  · rfl
  · rfl

/-- Claim C2 as amended: the builder fails with the malformed-target
configuration error exactly when the sources attribute is absent (`None` or
not a list/tuple); any actual list — including the empty list — passes
validation and continues to the staleness check. -/
theorem c2_sources_validation (env : BuildEnv) (fs : FS) (nm : String)
    (deps : List String) (dm : List (String × Option String)) (um : List String)
    (l : List String) :
    (buildExtension env fs
        { name := nm, sources := none, depends := deps,
          define_macros := dm, undef_macros := um }).outcome = .configError
      ∧ ((buildExtension env fs
            { name := nm, sources := some l, depends := deps,
              define_macros := dm, undef_macros := um }).outcome = .upToDate
          ∨ (buildExtension env fs
              { name := nm, sources := some l, depends := deps,
                define_macros := dm, undef_macros := um }).outcome = .built) := by
  constructor
  · rfl
  · simp only [buildExtension]
    by_cases h : (!(env.force || newer_group fs (l ++ deps) (env.extFullpath nm))) = true
    · rw [if_pos h]
      exact Or.inl rfl
    · rw [if_neg h]
      exact Or.inr rfl

/-- Claim C6: with the forced-rebuild flag off, every dependency file
present and not newer than the build time, and an existing artifact,
building twice in a row makes the second invocation terminate up to date
without invoking the compiler. -/
theorem c6_second_build_up_to_date (env : BuildEnv) (fs : FS) (ext : Ext) (srcs : List String)
    (hsrc : ext.sources = some srcs)
    (hforce : env.force = false)
    (hart : (fs.mtime (env.extFullpath ext.name)).isSome = true)
    (hdeps : ∀ d ∈ srcs ++ ext.depends, (fs.mtime d).getD (env.now + 1) ≤ env.now) :
    (buildExtension env (buildExtension env fs ext).fs ext).outcome = .upToDate
      ∧ (buildExtension env (buildExtension env fs ext).fs ext).compiled = false := by
  cases h1 : newer_group fs (srcs ++ ext.depends) (env.extFullpath ext.name) with
  | false =>
    have hfs : (buildExtension env fs ext).fs = fs := by
      simp [buildExtension, hsrc, hforce, h1]
    rw [hfs]
    constructor <;> simp [buildExtension, hsrc, hforce, h1]
  | true =>
    have hfs : (buildExtension env fs ext).fs
        = { mtime := fun p => if p = env.extFullpath ext.name then some env.now
              else fs.mtime p } := by
      simp [buildExtension, hsrc, hforce, h1]
    rw [hfs]
    have h2 : newer_group
        { mtime := fun p => if p = env.extFullpath ext.name then some env.now
            else fs.mtime p } (srcs ++ ext.depends) (env.extFullpath ext.name) = false := by
      apply newer_group_eq_false _ _ _ env.now
      · simp
      · intro d hd
        by_cases hdp : d = env.extFullpath ext.name
        · simp [hdp]
        · simp only [if_neg hdp]
          exact hdeps d hd
    constructor <;> simp [buildExtension, hsrc, hforce, h2]

/-- A file system holding one source, one dependency header and an older
artifact, for the C6 and C7 witnesses. -/
def fsBuilt : FS :=
  { mtime := fun p =>
      if p = "python/_brotli.c" then some 50
      else if p = "common/version.h" then some 40
      else if p = "build/_brotli.so" then some 60
      else none }

/-- The `_brotli` target as configured in `setup.py`, with one declared
dependency header. -/
def extBrotli : Ext :=
  { name := "_brotli", sources := some ["python/_brotli.c"],
    depends := ["common/version.h"], define_macros := [], undef_macros := [] }

/-- Witness for C6 on a concrete target, file system and environment. -/
theorem c6_second_build_up_to_date_witness :
    (buildExtension envLinux (buildExtension envLinux fsBuilt extBrotli).fs extBrotli).outcome
        = .upToDate
      ∧ (buildExtension envLinux (buildExtension envLinux fsBuilt extBrotli).fs extBrotli).compiled
        = false :=
  c6_second_build_up_to_date envLinux fsBuilt extBrotli ["python/_brotli.c"]
    rfl rfl (by decide) (by decide)

/-- Claim C7: touching any single file of the combined sources-plus-depends
list to a time strictly newer than the existing artifact makes the rebuild
take the compiling path rather than the up-to-date skip. -/
theorem c7_touch_forces_rebuild (env : BuildEnv) (fs : FS) (ext : Ext) (srcs : List String)
    (d : String) (t ta : Nat)
    (hsrc : ext.sources = some srcs)
    (hd : d ∈ srcs ++ ext.depends)
    (hart : fs.mtime (env.extFullpath ext.name) = some ta)
    (hne : d ≠ env.extFullpath ext.name)
    (ht : ta < t) :
    (buildExtension env (touch fs d t) ext).outcome = .built
      ∧ (buildExtension env (touch fs d t) ext).compiled = true := by
  have hng : newer_group (touch fs d t) (srcs ++ ext.depends) (env.extFullpath ext.name)
      = true := by
    unfold newer_group touch
    simp only [if_neg (Ne.symm hne), hart]
    rw [List.any_eq_true]
    refine ⟨d, hd, ?_⟩
    simp [ht]
  constructor <;> simp [buildExtension, hsrc, hng]

/-- Witness for C7: touching the dependency header to time 70, newer than
the artifact at 60, makes the next build compile. -/
theorem c7_touch_forces_rebuild_witness :
    (buildExtension envLinux (touch fsBuilt "common/version.h" 70) extBrotli).outcome = .built
      ∧ (buildExtension envLinux (touch fsBuilt "common/version.h" 70) extBrotli).compiled
        = true :=
  c7_touch_forces_rebuild envLinux fsBuilt extBrotli ["python/_brotli.c"]
    "common/version.h" 70 60 rfl (by decide) rfl (by decide) (by decide)

/-- Claim C8: on Darwin the assembled macro list is the declared defines,
then the single platform define `("OS_MACOSX", "1")`, then the undefines;
in particular a target with no declared defines and no undefines gets
exactly the one platform define and nothing else. -/
theorem c8_darwin_macro_application (ct : String)
    (ds : List (String × Option String)) (us : List String) :
    applyMacros "Darwin" ct ds us
        = (ds.map fun p => MacroEntry.define p.1 p.2)
            ++ [MacroEntry.define "OS_MACOSX" (some "1")]
            ++ us.map MacroEntry.undef
      ∧ applyMacros "Darwin" ct [] [] = [MacroEntry.define "OS_MACOSX" (some "1")] := by
  constructor
  · simp [applyMacros]
  · rfl

/-! ## Mutable-list semantics of the macro block (for the frame claim C10)

The statements at lines 158-167 of the source manipulate python list
objects:  `macros = ext.define_macros[:]`  allocates a fresh list object
holding a copy, and every `macros.append(...)` mutates that fresh object.
To state that the target's own `define_macros` list object is left
unchanged we re-embed just this block over an explicit heap of list
objects, where an extension's `define_macros` attribute is a reference into
the heap. -/

/-- A heap of python list objects holding macro entries; a reference is an
index. -/
abbrev MacroHeap : Type := List (List MacroEntry)

/-- Dereference a list object (empty for a dangling reference). -/
def heapGet (σ : MacroHeap) (r : Nat) : List MacroEntry :=
  List.getD σ r []

/-- `obj.append(e)` on the list object behind `r`. -/
def heapAppendAt (σ : MacroHeap) (r : Nat) (e : MacroEntry) : MacroHeap :=
  List.set σ r (heapGet σ r ++ [e])

/-- Allocate a fresh list object; returns the new heap and the fresh
reference. -/
def heapAlloc (σ : MacroHeap) (v : List MacroEntry) : MacroHeap × Nat :=
  (σ ++ [v], σ.length)

/-- The macro block of `build_extension` over the heap:
`macros = ext.define_macros[:]` (a copy into a fresh object), the
platform-conditional append, then one append per explicit undefine.
Returns the final heap and the reference to the macro list passed on to the
compiler. -/
def macroSetupHeap (σ : MacroHeap) (extMacrosRef : Nat) (undefs : List String)
    (platformSystem compilerType : String) : MacroHeap × Nat :=
  let alloc := heapAlloc σ (heapGet σ extMacrosRef)
  let σ1 := alloc.1
  let r := alloc.2
  let σ2 :=
    if platformSystem = "Darwin" then heapAppendAt σ1 r (.define "OS_MACOSX" (some "1"))
    else if compilerType = "mingw32" then heapAppendAt σ1 r (.define "_hypot" (some "hypot"))
    else σ1
  let σ3 := undefs.foldl (fun σ u => heapAppendAt σ r (MacroEntry.undef u)) σ2
  (σ3, r)

theorem heapGet_set_ne (σ : MacroHeap) (i j : Nat) (v : List MacroEntry) (h : j ≠ i) :
    heapGet (List.set σ i v) j = heapGet σ j := by
  unfold heapGet
  rw [List.getD_eq_getElem?_getD, List.getD_eq_getElem?_getD,
    List.getElem?_set_ne (fun he => h he.symm)]

theorem heapGet_appendAt_ne (σ : MacroHeap) (r j : Nat) (e : MacroEntry) (h : j ≠ r) :
    heapGet (heapAppendAt σ r e) j = heapGet σ j :=
  heapGet_set_ne σ r j _ h

theorem heapGet_foldl_appendAt_ne (us : List String) (σ : MacroHeap) (r j : Nat) (h : j ≠ r) :
    heapGet (us.foldl (fun σ u => heapAppendAt σ r (MacroEntry.undef u)) σ) j
      = heapGet σ j := by
  induction us generalizing σ with
  | nil => rfl
  | cons u rest ih =>
    simp only [List.foldl_cons]
    rw [ih, heapGet_appendAt_ne σ r j _ h]

theorem heapGet_alloc_lt (σ : MacroHeap) (v : List MacroEntry) (j : Nat) (h : j < σ.length) :
    heapGet (σ ++ [v]) j = heapGet σ j := by
  unfold heapGet
  rw [List.getD_eq_getElem?_getD, List.getD_eq_getElem?_getD,
    List.getElem?_append, if_pos h]

/-- Claim C10: the macro block leaves the list object behind the target's
`define_macros` attribute untouched — the platform define and the
undefines are appended only to the freshly allocated copy. -/
theorem c10_define_macros_unchanged (σ : MacroHeap) (extMacrosRef : Nat)
    (undefs : List String) (platformSystem compilerType : String)
    (h : extMacrosRef < σ.length) :
    heapGet (macroSetupHeap σ extMacrosRef undefs platformSystem compilerType).1 extMacrosRef
      = heapGet σ extMacrosRef := by
  have hne : extMacrosRef ≠ σ.length := Nat.ne_of_lt h
  unfold macroSetupHeap heapAlloc
  simp only []
  rw [heapGet_foldl_appendAt_ne _ _ _ _ hne]
  by_cases hp : platformSystem = "Darwin"
  · rw [if_pos hp, heapGet_appendAt_ne _ _ _ _ hne, heapGet_alloc_lt σ _ _ h]
  · rw [if_neg hp]
    by_cases hc : compilerType = "mingw32"
    · rw [if_pos hc, heapGet_appendAt_ne _ _ _ _ hne, heapGet_alloc_lt σ _ _ h]
    · rw [if_neg hc, heapGet_alloc_lt σ _ _ h]

/-- A one-object heap for the C10 witness: the target's declared define
list. -/
def heapOne : MacroHeap := [[MacroEntry.define "FOO" (some "1")]]

/-- Witness for C10: on a concrete heap, platform and undefine list, the
target's own define list is unchanged by the macro block. -/
theorem c10_define_macros_unchanged_witness :
    heapGet (macroSetupHeap heapOne 0 ["NDEBUG"] "Darwin" "unix").1 0 = heapGet heapOne 0 :=
  c10_define_macros_unchanged heapOne 0 ["NDEBUG"] "Darwin" "unix" (by decide)

end BrotliSetup
